import Mathlib

/-!
Verification of StorgataDB's RESP codec, command model, connection handler and
sync layer, as a shallow embedding of the Rust sources (src/resp_codec.rs,
src/cmd.rs, src/connection.rs, src/sync_layer.rs).

Byte streams are lists of natural numbers (each a byte value); Rust machine
integers are modelled as Nat/Int with explicit bounds where overflow matters.
-/

/-- Bytes of an ASCII Lean string literal, for writing the source's string
literals readably. -/
def strBytes (s : String) : List Nat := s.data.map Char.toNat

/-- RespValue (src/resp_codec.rs lines 7-14): the five RESP frame types.
Rust String payloads are byte lists (their UTF-8 bytes); Vec of u8 payloads are
byte lists. -/
inductive RespValue where
  | simpleString (s : List Nat)
  | error (e : List Nat)
  | integer (i : Int)
  | bulkString (bs : Option (List Nat))
  | array (a : List RespValue)

/-- Kind of a std io Error, as far as the connection handler inspects it
(connection.rs line 79 compares against ErrorKind UnexpectedEof). -/
inductive IoKind where
  | unexpectedEof
  | other
deriving DecidableEq

/-- ConnectionError (src/connection.rs lines 14-26). The payloads of the
ParseIntError and Utf8Error variants are std library error values which the
program never inspects; they are dropped here. -/
inductive ConnectionError where
  | incompleteData
  | unrecognizedType
  | ioError (k : IoKind)
  | parseIntError
  | utf8Error
deriving DecidableEq

mutual
/-- Whether a byte sequence is valid UTF-8 (the check done by Rust's
String.from_utf8, RFC 3629 lead-byte ranges). -/
def validUtf8 : List Nat → Bool
  | [] => true
  | b :: rest =>
    if b ≤ 0x7F then validUtf8 rest
    else if 0xC2 ≤ b && b ≤ 0xDF then expectCont 0x80 0xBF rest
    else if b = 0xE0 then expect2 0xA0 0xBF rest
    else if b = 0xED then expect2 0x80 0x9F rest
    else if (0xE1 ≤ b && b ≤ 0xEC) || (0xEE ≤ b && b ≤ 0xEF) then expect2 0x80 0xBF rest
    else if b = 0xF0 then expect3 0x90 0xBF rest
    else if 0xF1 ≤ b && b ≤ 0xF3 then expect3 0x80 0xBF rest
    else if b = 0xF4 then expect3 0x80 0x8F rest
    else false

/-- One continuation byte in the range lo..hi, then a valid UTF-8 tail. -/
def expectCont (lo hi : Nat) : List Nat → Bool
  | c :: r => (lo ≤ c && c ≤ hi) && validUtf8 r
  | [] => false

/-- A continuation byte in lo..hi, one more in 80..BF, then a valid tail. -/
def expect2 (lo hi : Nat) : List Nat → Bool
  | c :: r => (lo ≤ c && c ≤ hi) && expectCont 0x80 0xBF r
  | [] => false

/-- A continuation byte in lo..hi, two more in 80..BF, then a valid tail. -/
def expect3 (lo hi : Nat) : List Nat → Bool
  | c :: r => (lo ≤ c && c ≤ hi) && expect2 0x80 0xBF r
  | [] => false
end

/-- Decimal digits of n, least significant first, computed with explicit fuel
(structural recursion, so that the kernel can evaluate it); fuel n suffices
since division by 10 strictly decreases positive numbers. -/
def natDigitsRevFuel : Nat → Nat → List Nat
  | 0, _ => []
  | fuel + 1, n => if n = 0 then [] else (n % 10 + 48) :: natDigitsRevFuel fuel (n / 10)

/-- Decimal digits of n, least significant first (empty for 0). -/
def natDigitsRev (n : Nat) : List Nat := natDigitsRevFuel n n

/-- ASCII decimal rendering of a Nat, as produced by Rust's to_string. -/
def natToDec (n : Nat) : List Nat :=
  if n = 0 then [48] else (natDigitsRev n).reverse

/-- ASCII decimal rendering of an Int, as produced by Rust's to_string on i64. -/
def intToDec (i : Int) : List Nat :=
  if i < 0 then 45 :: natToDec i.natAbs else natToDec i.toNat

/-- ASCII decimal digit test. -/
def isDigit (b : Nat) : Bool := 48 ≤ b && b ≤ 57

/-- Value of an ASCII digit string, most significant first. -/
def digitsToNat (l : List Nat) : Nat := l.foldl (fun acc b => acc * 10 + (b - 48)) 0

/-- Core of Rust's from_str_radix: a nonempty all-digit string. -/
def parseDigits (l : List Nat) : Option Nat :=
  if l.isEmpty then none
  else if l.all isDigit then some (digitsToNat l) else none

/-- Rust's str.parse for an unsigned integer type with maximum value bound:
an optional leading plus sign, digits, overflow check. -/
def parseNatDec (bound : Nat) (l : List Nat) : Option Nat :=
  match l with
  | [] => none
  | b :: rest =>
    if b = 43 then (parseDigits rest).bind fun n => if n ≤ bound then some n else none
    else (parseDigits (b :: rest)).bind fun n => if n ≤ bound then some n else none

/-- Rust's str.parse for a signed integer type: optional sign, digits,
overflow check against the positive and negative magnitude bounds. -/
def parseIntDec (maxPos maxNegAbs : Nat) (l : List Nat) : Option Int :=
  match l with
  | [] => none
  | b :: rest =>
    if b = 45 then
      (parseDigits rest).bind fun n => if n ≤ maxNegAbs then some (-(n : Int)) else none
    else if b = 43 then
      (parseDigits rest).bind fun n => if n ≤ maxPos then some ((n : Int)) else none
    else
      (parseDigits (b :: rest)).bind fun n => if n ≤ maxPos then some ((n : Int)) else none

/-- str.parse for usize (64-bit target). -/
def parseUsize : List Nat → Option Nat := parseNatDec (2 ^ 64 - 1)

/-- str.parse for i64. -/
def parseI64 : List Nat → Option Int := parseIntDec (2 ^ 63 - 1) (2 ^ 63)

/-- str.parse for i32. -/
def parseI32 : List Nat → Option Int := parseIntDec (2 ^ 31 - 1) (2 ^ 31)

/-- read_until with delimiter LF: the bytes read (including the LF when found;
everything up to EOF otherwise) and the remaining stream. -/
def readUntilLF : List Nat → List Nat × List Nat
  | [] => ([], [])
  | b :: rest =>
    if b = 10 then ([10], rest)
    else
      let p := readUntilLF rest
      (b :: p.1, p.2)

/-- read_exact of n bytes: fails (with an UnexpectedEof io error) when the
stream holds fewer. -/
def readExact (n : Nat) (input : List Nat) : Option (List Nat × List Nat) :=
  if n ≤ input.length then some (input.take n, input.drop n) else none

/-- The line-reading step shared by the five decode branches
(resp_codec.rs lines 57-63 and its copies): read_until LF, require the byte at
index len-2 to be CR (else IncompleteData), then UTF-8 validate the content
before it (else a FromUtf8 error). Returns the content and the rest of the
stream. -/
def readLine (input : List Nat) : Except ConnectionError (List Nat × List Nat) :=
  let p := readUntilLF input
  let buf := p.1
  if buf.length < 2 then .error .incompleteData
  else if buf.getD (buf.length - 2) 0 ≠ 13 then .error .incompleteData
  else if validUtf8 (buf.take (buf.length - 2)) then .ok (buf.take (buf.length - 2), p.2)
  else .error .utf8Error

/-- The loop decoding the n elements of an array (resp_codec.rs lines 116-119),
parameterised by the decoder used for each element. `none` propagates the
element decoder's fuel exhaustion. -/
def RespCodec.decodeList
    (dec : List Nat → Option (Except ConnectionError (RespValue × List Nat))) :
    Nat → List Nat → Option (Except ConnectionError (List RespValue × List Nat))
  | 0, input => some (.ok ([], input))
  | k + 1, input =>
    match dec input with
    | none => none
    | some (.error e) => some (.error e)
    | some (.ok (v, rest)) =>
      match RespCodec.decodeList dec k rest with
      | none => none
      | some (.error e) => some (.error e)
      | some (.ok (vs, rest2)) => some (.ok (v :: vs, rest2))

/-- RespCodec::decode (resp_codec.rs lines 46-131), with a fuel bound on
array-nesting depth. `none` means the model gives no verdict: either the fuel
is exhausted, or the source panics (the only panic is the bulk-string branch
with declared length -2, where `len as usize + 2` overflows; any other negative
length makes read_exact fail with UnexpectedEof). On success returns the value
and the unconsumed rest of the stream. -/
def RespCodec.decode : Nat → List Nat → Option (Except ConnectionError (RespValue × List Nat))
  | 0, _ => none
  | _ + 1, [] => some (.error (.ioError .unexpectedEof))
  | fuel + 1, b :: input =>
    if b = 43 then
      -- Simple String
      match readLine input with
      | .error e => some (.error e)
      | .ok (s, rest) => some (.ok (.simpleString s, rest))
    else if b = 45 then
      -- Error
      match readLine input with
      | .error e => some (.error e)
      | .ok (s, rest) => some (.ok (.error s, rest))
    else if b = 58 then
      -- Integer
      match readLine input with
      | .error e => some (.error e)
      | .ok (s, rest) =>
        match parseI64 s with
        | none => some (.error .parseIntError)
        | some i => some (.ok (.integer i, rest))
    else if b = 36 then
      -- Bulk String
      match readLine input with
      | .error e => some (.error e)
      | .ok (s, rest) =>
        match parseI32 s with
        | none => some (.error .parseIntError)
        | some len =>
          if len = -1 then some (.ok (.bulkString none, rest))
          else
            -- `len as usize` sign-extends a negative i32 on a 64-bit target
            let ulen := (len.emod (2 ^ 64)).toNat
            if ulen = 2 ^ 64 - 2 then none
            else
              match readExact (ulen + 2) rest with
              | none => some (.error (.ioError .unexpectedEof))
              | some (buf, rest2) =>
                if buf.getD ulen 0 = 13 ∧ buf.getD (ulen + 1) 0 = 10 then
                  some (.ok (.bulkString (some (buf.take ulen)), rest2))
                else some (.error .incompleteData)
    else if b = 42 then
      -- Array
      match readLine input with
      | .error e => some (.error e)
      | .ok (s, rest) =>
        match parseUsize s with
        | none => some (.error .parseIntError)
        | some n =>
          match RespCodec.decodeList (RespCodec.decode fuel) n rest with
          | none => none
          | some (.error e) => some (.error e)
          | some (.ok (vs, rest2)) => some (.ok (.array vs, rest2))
    else some (.error .unrecognizedType)

/-- CRLF bytes. -/
def crlf : List Nat := [13, 10]

mutual
/-- RespCodec::encode (resp_codec.rs lines 133-177): the byte stream written
for a value. -/
def RespCodec.encode : RespValue → List Nat
  | .simpleString s => 43 :: (s ++ crlf)
  | .error e => 45 :: (e ++ crlf)
  | .integer i => 58 :: (intToDec i ++ crlf)
  | .bulkString none => 36 :: (45 :: 49 :: crlf)
  | .bulkString (some bs) => 36 :: (natToDec bs.length ++ crlf ++ bs ++ crlf)
  | .array a => 42 :: (natToDec a.length ++ crlf ++ RespCodec.encodeElems a)

/-- The bytes written for the elements of an array, in order
(resp_codec.rs lines 171-173). -/
def RespCodec.encodeElems : List RespValue → List Nat
  | [] => []
  | v :: vs => RespCodec.encode v ++ RespCodec.encodeElems vs
end

mutual
/-- Array-nesting depth of a value: the fuel RespCodec.decode needs. -/
def RespValue.depth : RespValue → Nat
  | .array a => RespValue.depthList a + 1
  | _ => 1

/-- Greatest depth among a list of values. -/
def RespValue.depthList : List RespValue → Nat
  | [] => 0
  | v :: vs => max v.depth (RespValue.depthList vs)
end

mutual
/-- Well-formedness of a value as a candidate for byte-exact round-tripping
through the codec; this captures exactly the invariants of the Rust types and
the spec's side conditions: simple-string and error payloads are UTF-8 (the
Rust String invariant) and LF-free (spec section 3: short UTF-8, no CR/LF;
here only LF-freedom is needed), integers fit in i64, bulk payloads are bytes
with a length parseable as i32, array lengths fit in usize. -/
def RespValue.wf : RespValue → Bool
  | .simpleString s => validUtf8 s && s.all (fun b => b ≠ 10)
  | .error e => validUtf8 e && e.all (fun b => b ≠ 10)
  | .integer i => decide (-(2 ^ 63) ≤ i ∧ i < 2 ^ 63)
  | .bulkString none => true
  | .bulkString (some bs) => decide (bs.length ≤ 2 ^ 31 - 1) && bs.all (fun b => b < 256)
  | .array a => decide (a.length ≤ 2 ^ 64 - 1) && RespValue.wfList a

/-- Well-formedness of every element of a list of values. -/
def RespValue.wfList : List RespValue → Bool
  | [] => true
  | v :: vs => v.wf && RespValue.wfList vs
end

/-- PutOptionSerde (cmd.rs lines 10-14). -/
structure PutOptionSerde where
  nx : Bool
  xx : Bool
deriving DecidableEq

/-- PutOptionSerde::nx (cmd.rs lines 17-22). -/
def PutOptionSerde.nxOpt : Option PutOptionSerde := some ⟨true, false⟩

/-- PutOptionSerde::xx (cmd.rs lines 24-29). -/
def PutOptionSerde.xxOpt : Option PutOptionSerde := some ⟨false, true⟩

/-- GetCmd (cmd.rs lines 52-54). -/
structure GetCmd where
  key : RespValue

/-- SetCmd (cmd.rs lines 56-61). -/
structure SetCmd where
  key : RespValue
  value : RespValue
  option : Option PutOptionSerde

/-- DelCmd (cmd.rs lines 63-65). -/
structure DelCmd where
  key : RespValue

/-- Cmd (cmd.rs lines 41-50). -/
inductive Cmd where
  | get (cmd : GetCmd)
  | set (cmd : SetCmd)
  | del (cmd : DelCmd)
  | ping
  | unknown

/-- convert_bulk_string_to_string (resp_codec.rs lines 16-21): the UTF-8 bytes
of the resulting String; invalid UTF-8 or a null bulk string give the empty
string. -/
def convertBulkStringToString (bs : Option (List Nat)) : List Nat :=
  match bs with
  | some bytes => if validUtf8 bytes then bytes else []
  | none => []

/-- GetCmd::parse (cmd.rs lines 87-101): a one-element argument array.
The anyhow error message is discarded by the caller, hence Option. -/
def GetCmd.parse : RespValue → Option GetCmd
  | .array [key] => some ⟨key⟩
  | _ => none

/-- SetCmd::parse (cmd.rs lines 103-137): two or three argument elements; the
third, when present, must be a bulk string reading exactly NX or XX. -/
def SetCmd.parse : RespValue → Option SetCmd
  | .array [key, value] => some ⟨key, value, none⟩
  | .array [key, value, opt] =>
    match opt with
    | .bulkString bytes =>
      let o := convertBulkStringToString bytes
      if o = strBytes "NX" then some ⟨key, value, PutOptionSerde.nxOpt⟩
      else if o = strBytes "XX" then some ⟨key, value, PutOptionSerde.xxOpt⟩
      else none
    | _ => none
  | _ => none

/-- DelCmd::parse (cmd.rs lines 139-153). -/
def DelCmd.parse : RespValue → Option DelCmd
  | .array [key] => some ⟨key⟩
  | _ => none

/-- PingCmd::parse (cmd.rs lines 155-162): an empty argument array. -/
def PingCmd.parse : RespValue → Option Unit
  | .array [] => some ()
  | _ => none

/-- Whether a value is a BulkString (the arm guard of Cmd::from). -/
def RespValue.isBulkString : RespValue → Bool
  | .bulkString _ => true
  | _ => false

/-- impl From of RespValue for Cmd (cmd.rs lines 164-198).  `none` models the
panic of arr.remove(0) on an empty vector (the guard accepts an empty array
vacuously).  The verb is matched by exact string comparison. -/
def Cmd.ofResp (value : RespValue) : Option Cmd :=
  match value with
  | .array arr =>
    if arr.all RespValue.isBulkString then
      match arr with
      | [] => none
      | v0 :: rest =>
        match v0 with
        | .bulkString cmdBytes =>
          let c := convertBulkStringToString cmdBytes
          if c = strBytes "GET" then
            some (match GetCmd.parse (.array rest) with
                  | some g => Cmd.get g
                  | none => Cmd.unknown)
          else if c = strBytes "SET" then
            some (match SetCmd.parse (.array rest) with
                  | some s => Cmd.set s
                  | none => Cmd.unknown)
          else if c = strBytes "DEL" then
            some (match DelCmd.parse (.array rest) with
                  | some d => Cmd.del d
                  | none => Cmd.unknown)
          else if c = strBytes "PING" then
            some (match PingCmd.parse (.array rest) with
                  | some _ => Cmd.ping
                  | none => Cmd.unknown)
          else some Cmd.unknown
        | _ => some Cmd.unknown
    else some Cmd.unknown
  | _ => some Cmd.unknown

/-- RequestId (sync_layer.rs line 14): an array of 16 bytes, modelled as a
byte list. -/
abbrev RequestId := List Nat

/-- InnerCmd (cmd.rs lines 200-208). -/
inductive InnerCmd where
  | get (id : RequestId) (key : List Nat)
  | put (id : RequestId) (key : List Nat) (value : List Nat) (option : Option PutOptionSerde)
  | del (id : RequestId) (key : List Nat)
  | ping
deriving DecidableEq

/-- convert_bulk_string_to_vec (cmd.rs lines 281-287); errors carry the bytes
of the anyhow message. -/
def convertBulkStringToVec : RespValue → Except (List Nat) (List Nat)
  | .bulkString (some bytes) => .ok bytes
  | .bulkString none => .error (strBytes "None bulk string")
  | _ => .error (strBytes "Invalid bulk string")

/-- InnerCmd::new (cmd.rs lines 256-279).  The fresh UUID minted inside is
passed in as the parameter id. -/
def InnerCmd.new (id : RequestId) : Cmd → Except (List Nat) InnerCmd
  | .get cmd => do
    let key ← convertBulkStringToVec cmd.key
    pure (.get id key)
  | .set cmd => do
    let key ← convertBulkStringToVec cmd.key
    let value ← convertBulkStringToVec cmd.value
    pure (.put id key value cmd.option)
  | .del cmd => do
    let key ← convertBulkStringToVec cmd.key
    pure (.del id key)
  | .ping => .ok .ping
  | .unknown => .error (strBytes "Unknown command")

/-- Syncable::get_request_id for InnerCmd (cmd.rs lines 246-253); `none`
models the panic on Ping. -/
def InnerCmd.getRequestId : InnerCmd → Option RequestId
  | .get id _ => some id
  | .put id _ _ _ => some id
  | .del id _ => some id
  | .ping => none

/-- An error of the external Bitcask engine, opaque to this program. -/
structure BitCaskError where
  code : Nat
deriving DecidableEq

/-- The external Bitcask handle, modelled as the key-value map it holds. -/
abbrev Storage := List Nat → Option (List Nat)

/-- The interface of the external bitcask_engine_rs crate consumed by
InnerCmd::handle: put_with_option and delete, each returning a result and the
updated store. -/
structure BitCaskOps where
  putWithOption :
    Storage → List Nat → List Nat → Option PutOptionSerde → Except BitCaskError Unit × Storage
  delete : Storage → List Nat → Except BitCaskError Unit × Storage

/-- Syncable::handle for InnerCmd (cmd.rs lines 228-244): Put calls
put_with_option, Del calls delete; `none` models the panic on Get or Ping
("Command should not be handled by sync layer"). -/
def InnerCmd.handle (ops : BitCaskOps) (storage : Storage) :
    InnerCmd → Option (Except BitCaskError Unit × Storage)
  | .put _ key value option => some (ops.putWithOption storage key value option)
  | .del _ key => some (ops.delete storage key)
  | _ => none

/-- The outcome of the 10-second wait on the oneshot reply channel in
Connection::handle_write (connection.rs line 138): `replied r` is Ok(Ok(r)),
`channelClosed` is Ok(Err(RecvError)) (sender dropped), `timedOut` is
Err(Elapsed). -/
inductive AwaitOutcome where
  | replied (r : Except BitCaskError Unit)
  | channelClosed
  | timedOut

/-- The reply frame Connection::handle_write sends for each wait outcome
(connection.rs lines 138-162). -/
def Connection.writeReply : AwaitOutcome → RespValue
  | .replied (.ok _) => .simpleString (strBytes "OK")
  | .replied (.error _) => .bulkString none
  | .channelClosed => .error (strBytes "Request timeout")
  | .timedOut => .error (strBytes "Internal error")

/-- What a connection-loop iteration does next. -/
inductive IterOutcome where
  | keepGoing
  | closeOk
  | closeErr
deriving DecidableEq

/-- Observable effect of handling one client frame: sync requests submitted to
the sync layer, frames written to the socket, and whether the read loop
continues or the handler returns (Ok or Err). -/
structure HandleEffect where
  syncSent : List InnerCmd
  sent : List RespValue
  outcome : IterOutcome

/-- Connection::handle_read (connection.rs lines 115-122): query the Bitcask
handle and reply with the value as a bulk string; nothing is submitted to the
sync layer. -/
def Connection.handleRead (storage : Storage) (key : List Nat) : HandleEffect :=
  { syncSent := [], sent := [.bulkString (storage key)], outcome := .keepGoing }

/-- Connection::handle_write (connection.rs lines 126-164): submit the command
to the sync layer, then reply according to the outcome of the 10-second wait. -/
def Connection.handleWrite (awaitO : AwaitOutcome) (cmd : InnerCmd) : HandleEffect :=
  { syncSent := [cmd], sent := [Connection.writeReply awaitO], outcome := .keepGoing }

/-- Modelled from the spec: the Ping arm of Connection::handle_valid_cmd is
missing from src/src/connection.rs (the match at lines 102-109 has no Ping or
wildcard arm, so the file as given would not even compile); spec section 4.3
says: Ping replies SimpleString("PONG") and the loop is re-entered. -/
def Connection.handlePing : HandleEffect :=
  { syncSent := [], sent := [.simpleString (strBytes "PONG")], outcome := .keepGoing }

/-- Connection::handle_valid_cmd (connection.rs lines 97-111): Get is served
from local storage, Put and Del go through handle_write; the Ping arm is the
spec-modelled Connection.handlePing. -/
def Connection.handleValidCmd (storage : Storage) (awaitO : AwaitOutcome) :
    InnerCmd → HandleEffect
  | .get _ key => Connection.handleRead storage key
  | .put id key value option => Connection.handleWrite awaitO (.put id key value option)
  | .del id key => Connection.handleWrite awaitO (.del id key)
  | .ping => Connection.handlePing

mutual
/-- The derived-style Debug rendering of RespValue (resp_codec.rs
lines 23-36), used in the unknown-command error message. -/
def respDebug : RespValue → List Nat
  | .simpleString s => strBytes "SimpleString(" ++ s ++ strBytes ")"
  | .error e => strBytes "Error(" ++ e ++ strBytes ")"
  | .integer i => strBytes "Integer(" ++ intToDec i ++ strBytes ")"
  | .bulkString bs => strBytes "BulkString(" ++ convertBulkStringToString bs ++ strBytes ")"
  | .array a => strBytes "Array([" ++ respDebugList a ++ strBytes "])"

/-- Debug rendering of a Vec of RespValue: elements separated by comma-space. -/
def respDebugList : List RespValue → List Nat
  | [] => []
  | [v] => respDebug v
  | v :: vs => respDebug v ++ strBytes ", " ++ respDebugList vs
end

/-- The Debug rendering of ConnectionError used in the error frames sent to
the client.  The payloads of IoError, ParseIntError and Utf8Error are std
library error values whose Debug text is outside this program; those variants
render as their bare name here (the claims never inspect these bytes). -/
def connErrDebug : ConnectionError → List Nat
  | .incompleteData => strBytes "IncompleteData"
  | .unrecognizedType => strBytes "UnrecognizedType"
  | .ioError _ => strBytes "IoError"
  | .parseIntError => strBytes "ParseIntError"
  | .utf8Error => strBytes "Utf8Error"

/-- One iteration of the read loop of Connection::handle (connection.rs
lines 56-94), as a function of the decode result.  The fresh request id minted
inside InnerCmd::new and the outcome of the oneshot wait (used only by writes)
are parameters; frames written to the socket are collected in `sent`.  `none`
models the panic of Cmd::from on an empty array. -/
def Connection.handleIter (storage : Storage) (freshId : RequestId)
    (awaitO : AwaitOutcome) (decRes : Except ConnectionError RespValue) :
    Option HandleEffect :=
  match decRes with
  | .ok res =>
    (Cmd.ofResp res).map fun c =>
      match InnerCmd.new freshId c with
      | .ok inner => Connection.handleValidCmd storage awaitO inner
      | .error _ =>
        { syncSent := [], sent := [.error (strBytes "Err unknown command " ++ respDebug res)],
          outcome := .keepGoing }
  | .error e =>
    match e with
    | .ioError k =>
      some { syncSent := [], sent := [],
             outcome := if k = .unexpectedEof then .closeOk else .closeErr }
    | _ =>
      some { syncSent := [], sent := [.error (strBytes "Err " ++ connErrDebug e)],
             outcome := .keepGoing }

/-- RequestMap (sync_layer.rs line 38): request id to the oneshot sender
(modelled as an opaque token). -/
abbrev RequestMap := RequestId → Option Nat

/-- Observable effect of one apply-task iteration: the Syncable::handle
invocations made, the notification sent on a removed oneshot sender (if any),
and the updated map and store. -/
structure ApplyEffect where
  handleCalls : List InnerCmd
  notified : Option (Nat × Except BitCaskError Unit)
  newMap : RequestMap
  newStorage : Storage

/-- One iteration of the sync layer's apply task (sync_layer.rs lines 70-81):
receive a committed payload (delivering the InnerCmd itself models the bincode
round trip), invoke Syncable::handle once, then remove the RequestMap entry
for its request id, if present, and send the result on it.  `none` models the
panics of handle / get_request_id on Get or Ping entries. -/
def SyncLayer.applyStep (ops : BitCaskOps) (storage : Storage) (map : RequestMap)
    (msg : InnerCmd) : Option ApplyEffect :=
  match InnerCmd.handle ops storage msg with
  | none => none
  | some (result, storage2) =>
    match InnerCmd.getRequestId msg with
    | none => none
    | some rid =>
      match map rid with
      | some tx =>
        some { handleCalls := [msg], notified := some (tx, result),
               newMap := fun k => if k = rid then none else map k,
               newStorage := storage2 }
      | none =>
        some { handleCalls := [msg], notified := none, newMap := map, newStorage := storage2 }

/-- The apply task run over a whole sequence of committed deliveries, in
delivery order, accumulating the trace of handle invocations. -/
def SyncLayer.applyAll (ops : BitCaskOps) :
    Storage → RequestMap → List InnerCmd → Option (Storage × RequestMap × List InnerCmd)
  | storage, map, [] => some (storage, map, [])
  | storage, map, msg :: rest =>
    match SyncLayer.applyStep ops storage map msg with
    | none => none
    | some eff =>
      match SyncLayer.applyAll ops eff.newStorage eff.newMap rest with
      | none => none
      | some (st, mp, trace) => some (st, mp, eff.handleCalls ++ trace)

/-- Whether a value is a non-null bulk string, i.e. an operand accepted by
convert_bulk_string_to_vec. -/
def RespValue.isSomeBulk : RespValue → Bool
  | .bulkString (some _) => true
  | _ => false

/-- A trivial instantiation of the external storage interface (both
operations succeed and leave the store untouched), used only as a concrete
input in witnesses. -/
def trivialOps : BitCaskOps :=
  { putWithOption := fun st _ _ _ => (.ok (), st), delete := fun st _ => (.ok (), st) }

/-! ## Helper lemmas -/

theorem validUtf8_ascii : ∀ l : List Nat, (∀ b ∈ l, b ≤ 127) → validUtf8 l = true := by
  intro l
  induction l with
  | nil => intro _; rfl
  | cons b rest ih =>
    intro h
    have hb : b ≤ 0x7F := h b (by simp)
    simp only [validUtf8]
    rw [if_pos hb]
    exact ih fun x hx => h x (by simp [hx])

theorem readUntilLF_no_lf :
    ∀ (s : List Nat), (∀ b ∈ s, b ≠ 10) →
      ∀ rest, readUntilLF (s ++ 10 :: rest) = (s ++ [10], rest) := by
  intro s
  induction s with
  | nil => intro _ rest; rfl
  | cons b t ih =>
    intro h rest
    have hb : b ≠ 10 := h b (by simp)
    have ht := ih (fun x hx => h x (by simp [hx])) rest
    simp only [List.cons_append, readUntilLF]
    rw [if_neg hb]
    simp [ht]

theorem list_getD_append (s t : List Nat) (d : Nat) :
    (s ++ t).getD s.length d = t.getD 0 d := by
  simp [List.getD_eq_getElem?_getD, List.getElem?_append_right (Nat.le_refl s.length)]

theorem readLine_crlf (s : List Nat) (h10 : ∀ b ∈ s, b ≠ 10) (hu : validUtf8 s = true)
    (rest : List Nat) : readLine (s ++ 13 :: 10 :: rest) = .ok (s, rest) := by
  have hsplit : s ++ 13 :: 10 :: rest = (s ++ [13]) ++ 10 :: rest := by simp
  have h13 : ∀ b ∈ s ++ [13], b ≠ 10 := by
    intro b hb
    rcases List.mem_append.mp hb with h | h
    · exact h10 b h
    · simp at h; omega
  have hread : readUntilLF (s ++ 13 :: 10 :: rest) = (s ++ [13, 10], rest) := by
    rw [hsplit, readUntilLF_no_lf (s ++ [13]) h13 rest]
    simp
  simp only [readLine, hread]
  have hlen : (s ++ [13, 10]).length = s.length + 2 := by simp
  rw [hlen]
  rw [if_neg (by omega : ¬ s.length + 2 < 2)]
  have hsub : s.length + 2 - 2 = s.length := by omega
  rw [hsub, list_getD_append s [13, 10] 0]
  have htake : (s ++ [13, 10]).take s.length = s := List.take_left s [13, 10]
  rw [htake, if_neg (by simp : ¬ (([13, 10] : List Nat).getD 0 0 ≠ 13)), if_pos hu]

theorem digitsToNat_append (l : List Nat) (b : Nat) :
    digitsToNat (l ++ [b]) = digitsToNat l * 10 + (b - 48) := by
  simp [digitsToNat, List.foldl_append]

theorem natDigitsRevFuel_digits :
    ∀ fuel n, (natDigitsRevFuel fuel n).all isDigit = true := by
  intro fuel
  induction fuel with
  | zero => intro n; rfl
  | succ f ih =>
    intro n
    by_cases hn : n = 0
    · simp [natDigitsRevFuel, hn]
    · have hm : n % 10 < 10 := Nat.mod_lt _ (by omega)
      simp only [natDigitsRevFuel, if_neg hn, List.all_cons]
      rw [ih (n / 10)]
      simp [isDigit]
      omega

theorem natDigitsRevFuel_val :
    ∀ fuel n, n ≤ fuel → digitsToNat (natDigitsRevFuel fuel n).reverse = n := by
  intro fuel
  induction fuel with
  | zero => intro n h; have : n = 0 := by omega
            subst this; rfl
  | succ f ih =>
    intro n h
    by_cases hn : n = 0
    · subst hn; rfl
    · have hlt : n / 10 < n := Nat.div_lt_self (by omega) (by omega)
      simp only [natDigitsRevFuel, if_neg hn, List.reverse_cons]
      rw [digitsToNat_append, ih (n / 10) (by omega)]
      omega

theorem natToDec_all_digit (n : Nat) : (natToDec n).all isDigit = true := by
  unfold natToDec
  by_cases hn : n = 0
  · simp [hn, isDigit]
  · rw [if_neg hn]
    rw [List.all_eq_true]
    intro b hb
    exact List.all_eq_true.mp (natDigitsRevFuel_digits n n) b (List.mem_reverse.mp hb)

theorem natToDec_val (n : Nat) : digitsToNat (natToDec n) = n := by
  unfold natToDec
  by_cases hn : n = 0
  · subst hn; rfl
  · rw [if_neg hn]
    exact natDigitsRevFuel_val n n (Nat.le_refl n)

theorem natToDec_ne_nil (n : Nat) : natToDec n ≠ [] := by
  unfold natToDec
  by_cases hn : n = 0
  · simp [hn]
  · rw [if_neg hn]
    cases n with
    | zero => omega
    | succ m => simp [natDigitsRev, natDigitsRevFuel]

theorem mem_natToDec_digit (n : Nat) : ∀ b ∈ natToDec n, isDigit b = true :=
  fun b hb => List.all_eq_true.mp (natToDec_all_digit n) b hb

theorem isDigit_bounds (b : Nat) (h : isDigit b = true) : 48 ≤ b ∧ b ≤ 57 := by
  simp only [isDigit, Bool.and_eq_true, decide_eq_true_eq] at h
  exact h

theorem parseDigits_natToDec (n : Nat) : parseDigits (natToDec n) = some n := by
  unfold parseDigits
  rw [if_neg (by simp [List.isEmpty_iff, natToDec_ne_nil n])]
  rw [if_pos (natToDec_all_digit n), natToDec_val]

theorem natToDec_cons (n : Nat) : ∃ d t, natToDec n = d :: t ∧ 48 ≤ d ∧ d ≤ 57 := by
  cases hcase : natToDec n with
  | nil => exact absurd hcase (natToDec_ne_nil n)
  | cons d t =>
    have hd := isDigit_bounds d (mem_natToDec_digit n d (by rw [hcase]; simp))
    exact ⟨d, t, rfl, hd.1, hd.2⟩

theorem parseNatDec_natToDec (bound n : Nat) (h : n ≤ bound) :
    parseNatDec bound (natToDec n) = some n := by
  obtain ⟨d, t, hdt, hd1, hd2⟩ := natToDec_cons n
  rw [hdt]
  simp only [parseNatDec]
  rw [if_neg (by omega : ¬ d = 43), ← hdt, parseDigits_natToDec]
  simp [h]

theorem parseIntDec_intToDec (maxPos maxNegAbs : Nat) (i : Int)
    (h1 : -(maxNegAbs : Int) ≤ i) (h2 : i ≤ (maxPos : Int)) :
    parseIntDec maxPos maxNegAbs (intToDec i) = some i := by
  by_cases hneg : i < 0
  · unfold intToDec
    rw [if_pos hneg]
    simp only [parseIntDec]
    rw [if_pos trivial, parseDigits_natToDec]
    have hle : i.natAbs ≤ maxNegAbs := by omega
    simp only [Option.bind_eq_bind, Option.some_bind, if_pos hle, Option.some.injEq]
    omega
  · unfold intToDec
    rw [if_neg hneg]
    obtain ⟨d, t, hdt, hd1, hd2⟩ := natToDec_cons i.toNat
    rw [hdt]
    simp only [parseIntDec]
    rw [if_neg (by omega : ¬ d = 45), if_neg (by omega : ¬ d = 43), ← hdt,
      parseDigits_natToDec]
    have hle : i.toNat ≤ maxPos := by omega
    simp only [Option.bind_eq_bind, Option.some_bind, if_pos hle, Option.some.injEq]
    omega

theorem mem_natToDec_le127 (n : Nat) : ∀ b ∈ natToDec n, b ≤ 127 := by
  intro b hb
  have := isDigit_bounds b (mem_natToDec_digit n b hb)
  omega

theorem natToDec_no_lf (n : Nat) : ∀ b ∈ natToDec n, b ≠ 10 := by
  intro b hb
  have := isDigit_bounds b (mem_natToDec_digit n b hb)
  omega

theorem validUtf8_natToDec (n : Nat) : validUtf8 (natToDec n) = true :=
  validUtf8_ascii _ (mem_natToDec_le127 n)

theorem mem_intToDec_le127 (i : Int) : ∀ b ∈ intToDec i, b ≤ 127 := by
  intro b hb
  unfold intToDec at hb
  by_cases hneg : i < 0
  · rw [if_pos hneg] at hb
    rcases List.mem_cons.mp hb with h | h
    · omega
    · exact mem_natToDec_le127 _ b h
  · rw [if_neg hneg] at hb
    exact mem_natToDec_le127 _ b hb

theorem intToDec_no_lf (i : Int) : ∀ b ∈ intToDec i, b ≠ 10 := by
  intro b hb
  have hd : b = 45 ∨ b ∈ natToDec i.natAbs ∨ b ∈ natToDec i.toNat := by
    unfold intToDec at hb
    by_cases hneg : i < 0
    · rw [if_pos hneg] at hb
      rcases List.mem_cons.mp hb with h | h
      · exact Or.inl h
      · exact Or.inr (Or.inl h)
    · rw [if_neg hneg] at hb
      exact Or.inr (Or.inr hb)
  rcases hd with h | h | h
  · omega
  · have := isDigit_bounds b (mem_natToDec_digit _ b h); omega
  · have := isDigit_bounds b (mem_natToDec_digit _ b h); omega

theorem validUtf8_intToDec (i : Int) : validUtf8 (intToDec i) = true :=
  validUtf8_ascii _ (mem_intToDec_le127 i)

theorem parseUsize_natToDec (n : Nat) (h : n ≤ 2 ^ 64 - 1) :
    parseUsize (natToDec n) = some n :=
  parseNatDec_natToDec _ n h

theorem parseI64_intToDec (i : Int) (h1 : -(2 ^ 63) ≤ i) (h2 : i < 2 ^ 63) :
    parseI64 (intToDec i) = some i := by
  apply parseIntDec_intToDec
  · push_cast; omega
  · push_cast; omega

theorem parseI32_natToDec (n : Nat) (h : n ≤ 2 ^ 31 - 1) :
    parseI32 (natToDec n) = some (n : Int) := by
  have : intToDec (n : Int) = natToDec n := by
    unfold intToDec
    rw [if_neg (by omega : ¬ (n : Int) < 0)]
    simp
  rw [← this]
  apply parseIntDec_intToDec
  · push_cast; omega
  · push_cast; omega

/-! ## Claim theorems -/

/-- C10: for every array header whose decimal count is negative (a minus sign
followed by decimal digits, which includes the RESP2 null array header with
count -1), RespCodec.decode returns a ParseInt error and never yields a
RespValue: array counts are parsed as an unsigned usize, so null or
negative-length arrays are rejected. -/
theorem negative_array_count_rejected (ds rest : List Nat) (fuel : Nat)
    (hds : ds.all isDigit = true) (hne : ds ≠ []) :
    RespCodec.decode (fuel + 1) (42 :: ((45 :: ds) ++ 13 :: 10 :: rest)) =
      some (.error .parseIntError) := by
  have hmem : ∀ b ∈ (45 : Nat) :: ds, 48 ≤ b ∧ b ≤ 57 ∨ b = 45 := by
    intro b hb
    rcases List.mem_cons.mp hb with h | h
    · exact Or.inr h
    · exact Or.inl (isDigit_bounds b (List.all_eq_true.mp hds b h))
  have h10 : ∀ b ∈ (45 : Nat) :: ds, b ≠ 10 := by
    intro b hb; rcases hmem b hb with h | h <;> omega
  have hu : validUtf8 (45 :: ds) = true := by
    apply validUtf8_ascii
    intro b hb; rcases hmem b hb with h | h <;> omega
  have hparse : parseUsize (45 :: ds) = none := by
    simp only [parseUsize, parseNatDec]
    rw [if_neg (by omega : ¬ (45 : Nat) = 43)]
    unfold parseDigits
    rw [if_neg (by simp : ¬ ((45 : Nat) :: ds).isEmpty = true)]
    rw [if_neg (by simp [isDigit] : ¬ ((45 : Nat) :: ds).all isDigit = true)]
    rfl
  simp only [RespCodec.decode]
  norm_num
  simp only [← List.cons_append]
  rw [readLine_crlf (45 :: ds) h10 hu rest]
  simp only [hparse]

theorem negative_array_count_rejected_witness :
    ([49] : List Nat).all isDigit = true ∧
    RespCodec.decode 1 (42 :: ((45 :: [49]) ++ 13 :: 10 :: [])) =
      some (.error .parseIntError) :=
  ⟨by decide, negative_array_count_rejected [49] [] 0 (by decide) (by decide)⟩

/-- C1: for every well-formed PING request (a RESP array whose single
bulk-string element is the verb PING), the connection handler replies
SimpleString("PONG"), whose encoding is the bytes of plus PONG CRLF, submits
nothing to the sync layer, and the connection loop continues.  (The Ping arm
itself is the spec-modelled Connection.handlePing, since that arm is absent
from the src copy of connection.rs.) -/
theorem ping_request_replies_pong (storage : Storage) (freshId : RequestId)
    (awaitO : AwaitOutcome) :
    RespCodec.decode 2 (strBytes "*1\r\n$4\r\nPING\r\n") =
      some (.ok (.array [.bulkString (some (strBytes "PING"))], [])) ∧
    Connection.handleIter storage freshId awaitO
        (.ok (.array [.bulkString (some (strBytes "PING"))])) =
      some { syncSent := [], sent := [.simpleString (strBytes "PONG")],
             outcome := .keepGoing } ∧
    RespCodec.encode (.simpleString (strBytes "PONG")) = strBytes "+PONG\r\n" :=
  ⟨rfl, rfl, rfl⟩

theorem ping_request_replies_pong_witness :
    Connection.handleIter (fun _ => none) (List.replicate 16 0) .timedOut
        (.ok (.array [.bulkString (some (strBytes "PING"))])) =
      some { syncSent := [], sent := [.simpleString (strBytes "PONG")],
             outcome := .keepGoing } :=
  (ping_request_replies_pong (fun _ => none) (List.replicate 16 0) .timedOut).2.1

/-- C2 counterexample: verb matching is not case-insensitive.  The lowercase
verb get parses to Unknown while GET parses to a Get command, refuting the
claim that any casing of the verb yields the same parsed command. -/
theorem verb_case_insensitive_cex :
    Cmd.ofResp (.array [.bulkString (some (strBytes "get")),
        .bulkString (some (strBytes "k"))]) = some Cmd.unknown ∧
    Cmd.ofResp (.array [.bulkString (some (strBytes "GET")),
        .bulkString (some (strBytes "k"))]) =
      some (Cmd.get ⟨.bulkString (some (strBytes "k"))⟩) ∧
    (Cmd.unknown ≠ Cmd.get ⟨.bulkString (some (strBytes "k"))⟩) :=
  ⟨rfl, rfl, fun h => Cmd.noConfusion h⟩

/-- C2 amended: verb matching is case-sensitive.  Cmd::from compares the verb
string verbatim against the four upper-case literals, so any other verb
string, including any other casing, parses to Unknown. -/
theorem verb_matching_case_sensitive (vb : List Nat) (rest : List RespValue)
    (hu : validUtf8 vb = true) (hg : vb ≠ strBytes "GET") (hs : vb ≠ strBytes "SET")
    (hd : vb ≠ strBytes "DEL") (hp : vb ≠ strBytes "PING")
    (hrest : rest.all RespValue.isBulkString = true) :
    Cmd.ofResp (.array (.bulkString (some vb) :: rest)) = some Cmd.unknown := by
  simp [Cmd.ofResp, convertBulkStringToString, RespValue.isBulkString, hrest, hu,
    hg, hs, hd, hp]

theorem verb_matching_case_sensitive_witness :
    Cmd.ofResp (.array [.bulkString (some (strBytes "get")),
        .bulkString (some (strBytes "k"))]) = some Cmd.unknown :=
  verb_matching_case_sensitive (strBytes "get") [.bulkString (some (strBytes "k"))]
    (by decide) (by decide) (by decide) (by decide) (by decide) rfl

/-- C5: for every Put or Del write, the reply is determined by the oneshot
outcome: Ok(Ok) gives SimpleString OK, Ok(Err _) gives the null bulk string
(encoded as dollar minus one), a dropped reply channel gives
Error("Request timeout"), and an elapsed 10-second timeout gives
Error("Internal error"). -/
theorem write_reply_determined_by_oneshot (e : BitCaskError) (awaitO : AwaitOutcome)
    (cmd : InnerCmd) :
    Connection.handleWrite awaitO cmd =
      { syncSent := [cmd], sent := [Connection.writeReply awaitO],
        outcome := .keepGoing } ∧
    Connection.writeReply (.replied (.ok ())) = .simpleString (strBytes "OK") ∧
    Connection.writeReply (.replied (.error e)) = .bulkString none ∧
    Connection.writeReply .channelClosed = .error (strBytes "Request timeout") ∧
    Connection.writeReply .timedOut = .error (strBytes "Internal error") ∧
    RespCodec.encode (.bulkString none) = strBytes "$-1\r\n" :=
  ⟨rfl, rfl, rfl, rfl, rfl, rfl⟩

theorem write_reply_determined_by_oneshot_witness :
    Connection.writeReply (.replied (.error ⟨0⟩)) = .bulkString none :=
  (write_reply_determined_by_oneshot ⟨0⟩ .timedOut .ping).2.2.1

/-- C6 counterexample: when the 10-second wait elapses the client is sent
Error("Internal error"), not the claimed minus Err Request timeout frame; the
reply bytes differ from the claimed bytes. -/
theorem commit_timeout_reply_cex :
    Connection.writeReply .timedOut = .error (strBytes "Internal error") ∧
    RespCodec.encode (Connection.writeReply .timedOut) ≠
      strBytes "-Err Request timeout\r\n" ∧
    RespCodec.encode (Connection.writeReply .timedOut) ≠
      RespCodec.encode (.error (strBytes "Request timeout")) := by
  refine ⟨rfl, ?_, ?_⟩ <;> decide

/-- C6 amended: when a write waits 10 seconds without an apply notification
the client receives Error("Internal error"), encoded as minus
Internal error CRLF; Error("Request timeout") is sent instead when the reply
channel is dropped without a reply. -/
theorem commit_timeout_reply_internal_error :
    Connection.writeReply .timedOut = .error (strBytes "Internal error") ∧
    RespCodec.encode (.error (strBytes "Internal error")) =
      strBytes "-Internal error\r\n" ∧
    Connection.writeReply .channelClosed = .error (strBytes "Request timeout") ∧
    RespCodec.encode (.error (strBytes "Request timeout")) =
      strBytes "-Request timeout\r\n" :=
  ⟨rfl, rfl, rfl, rfl⟩

/-- C8: every decode failure of kind IncompleteData, UnrecognizedType,
ParseInt or Utf8 makes the connection handler send an Error frame and continue
its read loop; only an Io failure ends the connection, returning cleanly when
its kind is UnexpectedEof and propagating the error otherwise. -/
theorem decode_error_dispatch (storage : Storage) (freshId : RequestId)
    (awaitO : AwaitOutcome) :
    (∀ e, (e = ConnectionError.incompleteData ∨ e = ConnectionError.unrecognizedType ∨
           e = ConnectionError.parseIntError ∨ e = ConnectionError.utf8Error) →
      Connection.handleIter storage freshId awaitO (.error e) =
        some { syncSent := [], sent := [.error (strBytes "Err " ++ connErrDebug e)],
               outcome := .keepGoing }) ∧
    Connection.handleIter storage freshId awaitO (.error (.ioError .unexpectedEof)) =
      some { syncSent := [], sent := [], outcome := .closeOk } ∧
    Connection.handleIter storage freshId awaitO (.error (.ioError .other)) =
      some { syncSent := [], sent := [], outcome := .closeErr } := by
  refine ⟨?_, rfl, rfl⟩
  rintro e (rfl | rfl | rfl | rfl) <;> rfl

theorem decode_error_dispatch_witness :
    Connection.handleIter (fun _ => none) [] .timedOut (.error .incompleteData) =
      some { syncSent := [],
             sent := [.error (strBytes "Err " ++ connErrDebug .incompleteData)],
             outcome := .keepGoing } :=
  (decode_error_dispatch (fun _ => none) [] .timedOut).1 .incompleteData (Or.inl rfl)

/-- C9: every GET is answered from local storage without submitting anything
to the sync layer: the reply is BulkString(Some v) when the key holds v and
the null bulk string (encoded dollar minus one) when the key is absent. -/
theorem get_read_bypasses_consensus (storage : Storage) (id : RequestId)
    (key : List Nat) (awaitO : AwaitOutcome) :
    Connection.handleValidCmd storage awaitO (.get id key) =
      { syncSent := [], sent := [.bulkString (storage key)], outcome := .keepGoing } ∧
    (∀ v, storage key = some v →
      Connection.handleValidCmd storage awaitO (.get id key) =
        { syncSent := [], sent := [.bulkString (some v)], outcome := .keepGoing }) ∧
    (storage key = none →
      Connection.handleValidCmd storage awaitO (.get id key) =
        { syncSent := [], sent := [.bulkString none], outcome := .keepGoing }) ∧
    RespCodec.encode (.bulkString none) = strBytes "$-1\r\n" := by
  refine ⟨rfl, ?_, ?_, rfl⟩
  · intro v hv
    simp [Connection.handleValidCmd, Connection.handleRead, hv]
  · intro hv
    simp [Connection.handleValidCmd, Connection.handleRead, hv]

theorem get_read_bypasses_consensus_witness :
    Connection.handleValidCmd (fun _ => some [1]) .timedOut (.get [] [7]) =
      { syncSent := [], sent := [.bulkString (some [1])], outcome := .keepGoing } :=
  ((get_read_bypasses_consensus (fun _ => some [1]) [] [7] .timedOut).2.1) [1] rfl

theorem convertBulkStringToVec_error_iff (v : RespValue) :
    (∃ msg, convertBulkStringToVec v = .error msg) ↔ v.isSomeBulk = false := by
  rcases v with s | e | i | bs | a
  · simp [convertBulkStringToVec, RespValue.isSomeBulk]
  · simp [convertBulkStringToVec, RespValue.isSomeBulk]
  · simp [convertBulkStringToVec, RespValue.isSomeBulk]
  · rcases bs with _ | b <;> simp [convertBulkStringToVec, RespValue.isSomeBulk]
  · simp [convertBulkStringToVec, RespValue.isSomeBulk]

/-- C7 counterexample: InnerCmd::new does not fail only on Unknown.  The frame
GET followed by a null bulk string parses (via Cmd::from) to a Get command,
which is not Unknown, yet InnerCmd::new fails on it because its key is a null
bulk string. -/
theorem innercmd_new_unknown_only_cex :
    Cmd.ofResp (.array [.bulkString (some (strBytes "GET")), .bulkString none]) =
      some (Cmd.get ⟨.bulkString none⟩) ∧
    InnerCmd.new (List.replicate 16 0) (Cmd.get ⟨.bulkString none⟩) =
      .error (strBytes "None bulk string") ∧
    (Cmd.get ⟨.bulkString none⟩ ≠ Cmd.unknown) :=
  ⟨rfl, rfl, fun h => Cmd.noConfusion h⟩

/-- C7 amended: InnerCmd::new (with the freshly minted id passed in) fails
exactly when the command is Unknown or one of its key/value operands is not a
non-null bulk string; it succeeds minting the id for Get/Set/Del with
non-null bulk-string operands, returns Ping without a request id for Ping, and
whenever it fails the connection replies with a RESP Error frame describing
the offending frame and keeps the connection open. -/
theorem innercmd_new_failure_characterisation (id : RequestId) :
    (∀ cmd, (∃ msg, InnerCmd.new id cmd = .error msg) ↔
      (match cmd with
       | .get g => g.key.isSomeBulk = false
       | .set s => s.key.isSomeBulk = false ∨ s.value.isSomeBulk = false
       | .del d => d.key.isSomeBulk = false
       | .ping => False
       | .unknown => True)) ∧
    (∀ kb, InnerCmd.new id (.get ⟨.bulkString (some kb)⟩) = .ok (.get id kb)) ∧
    (∀ kb vb o, InnerCmd.new id (.set ⟨.bulkString (some kb), .bulkString (some vb), o⟩) =
      .ok (.put id kb vb o)) ∧
    (∀ kb, InnerCmd.new id (.del ⟨.bulkString (some kb)⟩) = .ok (.del id kb)) ∧
    InnerCmd.new id .ping = .ok .ping ∧
    InnerCmd.new id .unknown = .error (strBytes "Unknown command") ∧
    (∀ storage awaitO res c msg, Cmd.ofResp res = some c →
      InnerCmd.new id c = .error msg →
      Connection.handleIter storage id awaitO (.ok res) =
        some { syncSent := [],
               sent := [.error (strBytes "Err unknown command " ++ respDebug res)],
               outcome := .keepGoing }) := by
  refine ⟨?_, fun kb => rfl, fun kb vb o => rfl, fun kb => rfl, rfl, rfl, ?_⟩
  · intro cmd
    rcases cmd with g | s | d | _ | _
    · rcases g with ⟨k⟩
      rcases hk : convertBulkStringToVec k with mk | bk
      · have hfalse : k.isSomeBulk = false :=
          (convertBulkStringToVec_error_iff k).mp ⟨mk, hk⟩
        simp [InnerCmd.new, hk, hfalse, Bind.bind, Except.bind, Pure.pure, Except.pure]
      · have htrue : ¬ k.isSomeBulk = false := by
          intro hco
          rcases (convertBulkStringToVec_error_iff k).mpr hco with ⟨m, hm⟩
          rw [hk] at hm
          exact Except.noConfusion hm
        simp [InnerCmd.new, hk, htrue, Bind.bind, Except.bind, Pure.pure, Except.pure]
    · rcases s with ⟨k, v, o⟩
      rcases hk : convertBulkStringToVec k with mk | bk
      · have hfalse : k.isSomeBulk = false :=
          (convertBulkStringToVec_error_iff k).mp ⟨mk, hk⟩
        simp [InnerCmd.new, hk, hfalse, Bind.bind, Except.bind, Pure.pure, Except.pure]
      · have htrue : ¬ k.isSomeBulk = false := by
          intro hco
          rcases (convertBulkStringToVec_error_iff k).mpr hco with ⟨m, hm⟩
          rw [hk] at hm
          exact Except.noConfusion hm
        rcases hv : convertBulkStringToVec v with mv | bv
        · have hvfalse : v.isSomeBulk = false :=
            (convertBulkStringToVec_error_iff v).mp ⟨mv, hv⟩
          simp [InnerCmd.new, hk, hv, htrue, hvfalse, Bind.bind, Except.bind, Pure.pure, Except.pure]
        · have hvtrue : ¬ v.isSomeBulk = false := by
            intro hco
            rcases (convertBulkStringToVec_error_iff v).mpr hco with ⟨m, hm⟩
            rw [hv] at hm
            exact Except.noConfusion hm
          simp [InnerCmd.new, hk, hv, htrue, hvtrue, Bind.bind, Except.bind, Pure.pure, Except.pure]
    · rcases d with ⟨k⟩
      rcases hk : convertBulkStringToVec k with mk | bk
      · have hfalse : k.isSomeBulk = false :=
          (convertBulkStringToVec_error_iff k).mp ⟨mk, hk⟩
        simp [InnerCmd.new, hk, hfalse, Bind.bind, Except.bind, Pure.pure, Except.pure]
      · have htrue : ¬ k.isSomeBulk = false := by
          intro hco
          rcases (convertBulkStringToVec_error_iff k).mpr hco with ⟨m, hm⟩
          rw [hk] at hm
          exact Except.noConfusion hm
        simp [InnerCmd.new, hk, htrue, Bind.bind, Except.bind, Pure.pure, Except.pure]
    · simp [InnerCmd.new]
    · simp [InnerCmd.new]
  · intro storage awaitO res c msg hres hmsg
    simp [Connection.handleIter, hres, hmsg]

theorem innercmd_new_failure_characterisation_witness :
    Connection.handleIter (fun _ => none) (List.replicate 16 0) .timedOut
        (.ok (.array [.integer 0])) =
      some { syncSent := [],
             sent := [.error (strBytes "Err unknown command " ++
               respDebug (.array [.integer 0]))],
             outcome := .keepGoing } :=
  (innercmd_new_failure_characterisation (List.replicate 16 0)).2.2.2.2.2.2
    (fun _ => none) .timedOut (.array [.integer 0]) Cmd.unknown
    (strBytes "Unknown command") rfl rfl

theorem applyStep_put_del (ops : BitCaskOps) (storage : Storage) (map : RequestMap)
    (msg : InnerCmd) (rid : RequestId)
    (hmsg : (∃ k v o, msg = InnerCmd.put rid k v o) ∨ (∃ k, msg = InnerCmd.del rid k)) :
    ∃ eff, SyncLayer.applyStep ops storage map msg = some eff ∧
      eff.handleCalls = [msg] ∧ eff.newMap rid = none ∧
      (∀ k2, k2 ≠ rid → eff.newMap k2 = map k2) ∧
      (map rid = none → eff.notified = none ∧ eff.newMap = map) := by
  have hhandle : ∃ result storage2,
      InnerCmd.handle ops storage msg = some (result, storage2) ∧
      msg.getRequestId = some rid := by
    rcases hmsg with ⟨k, v, o, rfl⟩ | ⟨k, rfl⟩
    · exact ⟨(ops.putWithOption storage k v o).1, (ops.putWithOption storage k v o).2,
        rfl, rfl⟩
    · exact ⟨(ops.delete storage k).1, (ops.delete storage k).2, rfl, rfl⟩
  obtain ⟨result, storage2, hh, hid⟩ := hhandle
  cases hmap : map rid with
  | some tx =>
    refine ⟨{ handleCalls := [msg], notified := some (tx, result),
              newMap := fun k2 => if k2 = rid then none else map k2,
              newStorage := storage2 }, ?_, rfl, by simp, ?_, ?_⟩
    · simp [SyncLayer.applyStep, hh, hid, hmap]
    · intro k2 hk2
      simp [hk2]
    · intro hnone
      exact Option.noConfusion hnone
  | none =>
    exact ⟨{ handleCalls := [msg], notified := none, newMap := map,
             newStorage := storage2 },
      by simp [SyncLayer.applyStep, hh, hid, hmap], rfl, hmap, fun k2 _ => rfl,
      fun _ => ⟨rfl, rfl⟩⟩

theorem applyAll_trace (ops : BitCaskOps) :
    ∀ (msgs : List InnerCmd) (storage : Storage) (map : RequestMap),
      (∀ m ∈ msgs, ∃ rid, (∃ k v o, m = InnerCmd.put rid k v o) ∨
        (∃ k, m = InnerCmd.del rid k)) →
      ∃ st mp trace, SyncLayer.applyAll ops storage map msgs = some (st, mp, trace) ∧
        trace = msgs := by
  intro msgs
  induction msgs with
  | nil => exact fun storage map _ => ⟨storage, map, [], rfl, rfl⟩
  | cons m rest ih =>
    intro storage map hall
    obtain ⟨rid, hm⟩ := hall m (by simp)
    obtain ⟨eff, hstep, hcalls, _, _, _⟩ := applyStep_put_del ops storage map m rid hm
    obtain ⟨st, mp, trace, hrest, htrace⟩ :=
      ih eff.newStorage eff.newMap (fun x hx => hall x (by simp [hx]))
    refine ⟨st, mp, eff.handleCalls ++ trace, ?_, by rw [hcalls, htrace]; rfl⟩
    simp only [SyncLayer.applyAll, hstep, hrest]

/-- C4: at-most-once apply.  For any committed Put or Del with request id r
delivered on the committed channel (the channel is modelled as the list of
delivered commands), one apply-task iteration invokes Syncable::handle exactly
once for it and removes at most one RequestMap entry, the one keyed by r,
leaving every other key untouched; an entry whose id is absent from the map is
applied silently (no notification, map unchanged); and a whole sequence of
committed entries is applied exactly once each, in delivery order. -/
theorem at_most_once_apply (ops : BitCaskOps) :
    (∀ (storage : Storage) (map : RequestMap) (msg : InnerCmd) (rid : RequestId),
      ((∃ k v o, msg = InnerCmd.put rid k v o) ∨ (∃ k, msg = InnerCmd.del rid k)) →
      ∃ eff, SyncLayer.applyStep ops storage map msg = some eff ∧
        eff.handleCalls = [msg] ∧
        eff.newMap rid = none ∧
        (∀ k2, k2 ≠ rid → eff.newMap k2 = map k2) ∧
        (map rid = none → eff.notified = none ∧ eff.newMap = map)) ∧
    (∀ (msgs : List InnerCmd) (storage : Storage) (map : RequestMap),
      (∀ m ∈ msgs, ∃ rid, (∃ k v o, m = InnerCmd.put rid k v o) ∨
        (∃ k, m = InnerCmd.del rid k)) →
      ∃ st mp trace, SyncLayer.applyAll ops storage map msgs = some (st, mp, trace) ∧
        trace = msgs) :=
  ⟨fun storage map msg rid h => applyStep_put_del ops storage map msg rid h,
   applyAll_trace ops⟩

theorem at_most_once_apply_witness :
    ∃ eff, SyncLayer.applyStep trivialOps (fun _ => none) (fun _ => none)
        (InnerCmd.del [1] [2]) = some eff ∧
      eff.handleCalls = [InnerCmd.del [1] [2]] ∧
      eff.newMap [1] = none ∧
      (∀ k2, k2 ≠ [1] → eff.newMap k2 = (fun _ => none : RequestMap) k2) ∧
      ((fun _ => none : RequestMap) [1] = none →
        eff.notified = none ∧ eff.newMap = (fun _ => none : RequestMap)) :=
  (at_most_once_apply trivialOps).1 (fun _ => none) (fun _ => none)
    (InnerCmd.del [1] [2]) [1] (Or.inr ⟨[2], rfl⟩)

theorem list_getD_append_off (s t : List Nat) (k d : Nat) :
    (s ++ t).getD (s.length + k) d = t.getD k d := by
  simp [List.getD_eq_getElem?_getD,
    List.getElem?_append_right (Nat.le_add_right s.length k)]

theorem readExact_append (bs rest : List Nat) :
    readExact (bs.length + 2) (bs ++ 13 :: 10 :: rest) = some (bs ++ [13, 10], rest) := by
  have hshape : bs ++ 13 :: 10 :: rest = (bs ++ [13, 10]) ++ rest := by simp
  have hlen : (bs ++ [13, 10]).length = bs.length + 2 := by simp
  rw [hshape]
  unfold readExact
  rw [if_pos (by simp), ← hlen, List.take_left, List.drop_left]

theorem decodeList_encodeElems (N : Nat)
    (ih : ∀ w : RespValue, sizeOf w ≤ N → w.wf = true → ∀ fuel rest, w.depth ≤ fuel →
      RespCodec.decode fuel (RespCodec.encode w ++ rest) = some (.ok (w, rest))) :
    ∀ (a : List RespValue), (∀ w ∈ a, sizeOf w ≤ N) → RespValue.wfList a = true →
      ∀ fuel rest, RespValue.depthList a ≤ fuel →
      RespCodec.decodeList (RespCodec.decode fuel) a.length
        (RespCodec.encodeElems a ++ rest) = some (.ok (a, rest)) := by
  intro a
  induction a with
  | nil => intro _ _ fuel rest _; rfl
  | cons w ws ihl =>
    intro hsize hwf fuel rest hdepth
    have hwfs : w.wf = true ∧ RespValue.wfList ws = true := by
      simpa [RespValue.wfList, Bool.and_eq_true] using hwf
    have hdepths : w.depth ≤ fuel ∧ RespValue.depthList ws ≤ fuel := by
      have h := hdepth
      simp only [RespValue.depthList] at h
      omega
    simp only [RespCodec.encodeElems, List.length_cons, List.append_assoc]
    simp only [RespCodec.decodeList]
    rw [ih w (hsize w (by simp)) hwfs.1 fuel (RespCodec.encodeElems ws ++ rest)
      hdepths.1]
    simp [ihl (fun x hx => hsize x (by simp [hx])) hwfs.2 fuel rest hdepths.2]

theorem decode_cons_43 (f : Nat) (input : List Nat) :
    RespCodec.decode (f + 1) (43 :: input) =
      match readLine input with
      | .error e => some (.error e)
      | .ok (s, rest) => some (.ok (.simpleString s, rest)) := by
  simp only [RespCodec.decode]
  rw [if_pos trivial]

theorem decode_cons_45 (f : Nat) (input : List Nat) :
    RespCodec.decode (f + 1) (45 :: input) =
      match readLine input with
      | .error e => some (.error e)
      | .ok (s, rest) => some (.ok (.error s, rest)) := by
  simp only [RespCodec.decode]
  rw [if_neg (by decide : ¬ (45 : Nat) = 43)]
  exact if_pos trivial

theorem decode_cons_58 (f : Nat) (input : List Nat) :
    RespCodec.decode (f + 1) (58 :: input) =
      match readLine input with
      | .error e => some (.error e)
      | .ok (s, rest) =>
        match parseI64 s with
        | none => some (.error .parseIntError)
        | some i => some (.ok (.integer i, rest)) := by
  simp only [RespCodec.decode]
  rw [if_neg (by decide : ¬ (58 : Nat) = 43), if_neg (by decide : ¬ (58 : Nat) = 45)]
  exact if_pos trivial

theorem decode_cons_36 (f : Nat) (input : List Nat) :
    RespCodec.decode (f + 1) (36 :: input) =
      match readLine input with
      | .error e => some (.error e)
      | .ok (s, rest) =>
        match parseI32 s with
        | none => some (.error .parseIntError)
        | some len =>
          if len = -1 then some (.ok (.bulkString none, rest))
          else
            if (len.emod (2 ^ 64)).toNat = 2 ^ 64 - 2 then none
            else
              match readExact ((len.emod (2 ^ 64)).toNat + 2) rest with
              | none => some (.error (.ioError .unexpectedEof))
              | some (buf, rest2) =>
                if buf.getD (len.emod (2 ^ 64)).toNat 0 = 13 ∧
                    buf.getD ((len.emod (2 ^ 64)).toNat + 1) 0 = 10 then
                  some (.ok (.bulkString (some (buf.take (len.emod (2 ^ 64)).toNat)),
                    rest2))
                else some (.error .incompleteData) := by
  simp only [RespCodec.decode]
  rw [if_neg (by decide : ¬ (36 : Nat) = 43), if_neg (by decide : ¬ (36 : Nat) = 45),
    if_neg (by decide : ¬ (36 : Nat) = 58)]
  exact if_pos trivial

theorem decode_cons_42 (f : Nat) (input : List Nat) :
    RespCodec.decode (f + 1) (42 :: input) =
      match readLine input with
      | .error e => some (.error e)
      | .ok (s, rest) =>
        match parseUsize s with
        | none => some (.error .parseIntError)
        | some n =>
          match RespCodec.decodeList (RespCodec.decode f) n rest with
          | none => none
          | some (.error e) => some (.error e)
          | some (.ok (vs, rest2)) => some (.ok (.array vs, rest2)) := by
  simp only [RespCodec.decode]
  rw [if_neg (by decide : ¬ (42 : Nat) = 43), if_neg (by decide : ¬ (42 : Nat) = 45),
    if_neg (by decide : ¬ (42 : Nat) = 58), if_neg (by decide : ¬ (42 : Nat) = 36)]
  exact if_pos trivial

theorem decode_encode_of_wf_size :
    ∀ (N : Nat) (v : RespValue), sizeOf v ≤ N → v.wf = true →
      ∀ fuel rest, v.depth ≤ fuel →
      RespCodec.decode fuel (RespCodec.encode v ++ rest) = some (.ok (v, rest)) := by
  intro N
  induction N with
  | zero =>
    intro v hv
    exfalso
    cases v <;> simp at hv
  | succ N ih =>
    intro v hsize hwf fuel rest hfuel
    cases v with
    | simpleString s =>
      have hbits : validUtf8 s = true ∧ s.all (fun b => b ≠ 10) = true := by
        simpa [RespValue.wf, Bool.and_eq_true] using hwf
      have h10 : ∀ b ∈ s, b ≠ 10 := by
        intro b hb
        simpa using List.all_eq_true.mp hbits.2 b hb
      obtain ⟨f, rfl⟩ : ∃ f, fuel = f + 1 := by
        refine ⟨fuel - 1, ?_⟩
        simp [RespValue.depth] at hfuel
        omega
      have hshape : RespCodec.encode (.simpleString s) ++ rest =
          43 :: (s ++ 13 :: 10 :: rest) := by
        simp [RespCodec.encode, crlf]
      rw [hshape, decode_cons_43 f, readLine_crlf s h10 hbits.1 rest]
    | error e =>
      have hbits : validUtf8 e = true ∧ e.all (fun b => b ≠ 10) = true := by
        simpa [RespValue.wf, Bool.and_eq_true] using hwf
      have h10 : ∀ b ∈ e, b ≠ 10 := by
        intro b hb
        simpa using List.all_eq_true.mp hbits.2 b hb
      obtain ⟨f, rfl⟩ : ∃ f, fuel = f + 1 := by
        refine ⟨fuel - 1, ?_⟩
        simp [RespValue.depth] at hfuel
        omega
      have hshape : RespCodec.encode (.error e) ++ rest =
          45 :: (e ++ 13 :: 10 :: rest) := by
        simp [RespCodec.encode, crlf]
      rw [hshape, decode_cons_45 f, readLine_crlf e h10 hbits.1 rest]
    | integer i =>
      have hbound : -(2 ^ 63) ≤ i ∧ i < 2 ^ 63 := by
        simp only [RespValue.wf] at hwf
        exact of_decide_eq_true hwf
      obtain ⟨f, rfl⟩ : ∃ f, fuel = f + 1 := by
        refine ⟨fuel - 1, ?_⟩
        simp [RespValue.depth] at hfuel
        omega
      have hshape : RespCodec.encode (.integer i) ++ rest =
          58 :: (intToDec i ++ 13 :: 10 :: rest) := by
        simp [RespCodec.encode, crlf]
      rw [hshape, decode_cons_58 f, readLine_crlf (intToDec i) (intToDec_no_lf i)
        (validUtf8_intToDec i) rest]
      simp only [parseI64_intToDec i hbound.1 hbound.2]
    | bulkString obs =>
      obtain ⟨f, rfl⟩ : ∃ f, fuel = f + 1 := by
        refine ⟨fuel - 1, ?_⟩
        simp [RespValue.depth] at hfuel
        omega
      cases obs with
      | none =>
        have hshape : RespCodec.encode (.bulkString none) ++ rest =
            36 :: ([45, 49] ++ 13 :: 10 :: rest) := rfl
        rw [hshape, decode_cons_36 f, readLine_crlf [45, 49] (by decide) (by decide) rest]
        simp only [show parseI32 [45, 49] = some (-1) from rfl]
        exact if_pos trivial
      | some bs =>
        have hlen31 : bs.length ≤ 2 ^ 31 - 1 := by
          simp only [RespValue.wf, Bool.and_eq_true] at hwf
          exact of_decide_eq_true hwf.1
        have hshape : RespCodec.encode (.bulkString (some bs)) ++ rest =
            36 :: (natToDec bs.length ++ 13 :: 10 :: (bs ++ 13 :: 10 :: rest)) := by
          simp [RespCodec.encode, crlf]
        rw [hshape, decode_cons_36 f, readLine_crlf (natToDec bs.length)
          (natToDec_no_lf _) (validUtf8_natToDec _) (bs ++ 13 :: 10 :: rest)]
        simp only [parseI32_natToDec bs.length hlen31]
        rw [if_neg (by omega : ¬ ((bs.length : Int) = -1))]
        have hulen : (((bs.length : Int)).emod (2 ^ 64)).toNat = bs.length := by
          have hmod : ((bs.length : Int)).emod (2 ^ 64) = (bs.length : Int) % (2 ^ 64) := rfl
          rw [hmod]
          have := hlen31
          omega
        rw [hulen, if_neg (by omega : ¬ bs.length = 2 ^ 64 - 2), readExact_append bs rest]
        have h13 : (bs ++ [13, 10]).getD bs.length 0 = 13 := by
          simpa using list_getD_append_off bs [13, 10] 0 0
        have h10b : (bs ++ [13, 10]).getD (bs.length + 1) 0 = 10 := by
          simpa using list_getD_append_off bs [13, 10] 1 0
        have htake : (bs ++ [13, 10]).take bs.length = bs := List.take_left bs [13, 10]
        show (if (bs ++ [13, 10]).getD bs.length 0 = 13 ∧
              (bs ++ [13, 10]).getD (bs.length + 1) 0 = 10 then
            some (Except.ok (RespValue.bulkString (some ((bs ++ [13, 10]).take bs.length)),
              rest))
          else some (Except.error ConnectionError.incompleteData)) =
          some (Except.ok (RespValue.bulkString (some bs), rest))
        rw [if_pos ⟨h13, h10b⟩, htake]
    | array a =>
      have hsub : a.length ≤ 2 ^ 64 - 1 ∧ RespValue.wfList a = true := by
        simp only [RespValue.wf, Bool.and_eq_true] at hwf
        exact ⟨of_decide_eq_true hwf.1, hwf.2⟩
      have hmem : ∀ w ∈ a, sizeOf w ≤ N := by
        intro w hw
        have h1 := List.sizeOf_lt_of_mem hw
        have h2 : sizeOf (RespValue.array a) = 1 + sizeOf a := by simp
        omega
      obtain ⟨f, rfl⟩ : ∃ f, fuel = f + 1 := by
        refine ⟨fuel - 1, ?_⟩
        have : 1 ≤ (RespValue.array a).depth := by
          simp [RespValue.depth]
        omega
      have hfd : RespValue.depthList a ≤ f := by
        simp only [RespValue.depth] at hfuel
        omega
      have hshape : RespCodec.encode (.array a) ++ rest =
          42 :: (natToDec a.length ++ 13 :: 10 :: (RespCodec.encodeElems a ++ rest)) := by
        simp [RespCodec.encode, crlf]
      rw [hshape, decode_cons_42 f, readLine_crlf (natToDec a.length)
        (natToDec_no_lf _) (validUtf8_natToDec _) (RespCodec.encodeElems a ++ rest)]
      simp only [parseUsize_natToDec a.length hsub.1]
      simp only [decodeList_encodeElems N ih a hmem hsub.2 f rest hfd]

/-- C3 counterexample: the round trip does not hold for every RespValue of
bounded depth.  The depth-1 value SimpleString over the single byte LF
encodes, but decoding its encoding yields an IncompleteData error rather than
the value back. -/
theorem codec_roundtrip_cex :
    RespCodec.decode 1 (RespCodec.encode (.simpleString [10]) ++ []) =
      some (.error .incompleteData) ∧
    RespCodec.decode 1 (RespCodec.encode (.simpleString [10]) ++ []) ≠
      some (.ok (.simpleString [10], [])) := by
  refine ⟨rfl, fun h => ?_⟩
  have h2 := Eq.trans (Eq.symm (rfl :
    RespCodec.decode 1 (RespCodec.encode (.simpleString [10]) ++ []) =
      some (.error .incompleteData))) h
  exact Except.noConfusion (Option.some.inj h2)

/-- C3 amended: for every well-formed RespValue (simple-string and error
payloads valid UTF-8 and LF-free, integers in the i64 range, bulk payloads
of i32-parseable length, array lengths in usize range), decoding the byte
stream produced by encoding it, with fuel at least its nesting depth, returns
exactly the value and consumes exactly its encoding; and encode is injective
on well-formed values. -/
theorem codec_roundtrip (v : RespValue) (hwf : v.wf = true) :
    (∀ fuel rest, v.depth ≤ fuel →
      RespCodec.decode fuel (RespCodec.encode v ++ rest) = some (.ok (v, rest))) ∧
    (∀ w, w.wf = true → RespCodec.encode v = RespCodec.encode w → v = w) := by
  constructor
  · intro fuel rest h
    exact decode_encode_of_wf_size (sizeOf v) v (Nat.le_refl _) hwf fuel rest h
  · intro w hw heq
    have h1 := decode_encode_of_wf_size (sizeOf v) v (Nat.le_refl _) hwf
      (max v.depth w.depth) [] (le_max_left _ _)
    have h2 := decode_encode_of_wf_size (sizeOf w) w (Nat.le_refl _) hw
      (max v.depth w.depth) [] (le_max_right _ _)
    rw [heq] at h1
    rw [h1] at h2
    have h3 := Option.some.inj h2
    have h4 := Except.ok.inj h3
    exact (Prod.mk.injEq _ _ _ _ ▸ h4).1

theorem codec_roundtrip_witness :
    (RespValue.array [.integer 5, .bulkString (some [104, 105])]).wf = true ∧
    RespCodec.decode 2
        (RespCodec.encode (.array [.integer 5, .bulkString (some [104, 105])]) ++ []) =
      some (.ok (.array [.integer 5, .bulkString (some [104, 105])], [])) :=
  ⟨by decide,
   (codec_roundtrip (.array [.integer 5, .bulkString (some [104, 105])]) (by decide)).1
     2 [] (by decide)⟩
